import Mathlib

/-!
Verification of the repository-ingestion pipeline of `open-docs`.

The definitions below are a shallow embedding of the TypeScript source in
`src/unnamed/part_004` (the `lib/codebase` module: `walkTree`,
`getRepositoryStructure`, `getRepositoryData`, the ignore/filter policy and
the markdown fence helpers) and of the structural summarizer
(`parseTypeScriptApiAndStructure` with its inner `processNode` and
`processFunctionLogicNode`).

Modelling conventions:
* JavaScript strings are Lean `String`s; `String.prototype.includes` is the
  executable `strIncludes` below; `replace(pat, "")` with a plain string
  pattern replaces only the first occurrence, modelled by `removeFirst...`.
* `isomorphic-git`'s `walk` is an external library: it presents the tree to
  the `map` callback as a sequence of visits `(filepath, entry)` in
  depth-first order, the root first with `filepath = ""`.  The walk is
  modelled by folding the callback body over that visit sequence
  (`VisitEntry` list).  The callback never returns the literal `null`, so
  `isomorphic-git` never prunes a subtree: every entry of the tree is
  visited, which the flat visit list represents directly.
* A JavaScript `Map` is an association list with insert-or-replace `mapSet`;
  `Map.prototype.size` is the list length (keys stay distinct).
* Exceptions are `Except String`; `entry.content()` of a blob is an
  `Except String String` carried in the visit entry.
-/

/-! ### Character-list string primitives (JS `includes`, `replace`, `extname`) -/

/-- `leadsWith s pat`: the char list `s` starts with `pat`
(JS `String.prototype.startsWith` on the raw characters). -/
def leadsWith : List Char → List Char → Bool
  | _, [] => true
  | [], _ :: _ => false
  | a :: s, b :: p => a == b && leadsWith s p

/-- `listContains s pat`: `pat` occurs as a contiguous run inside `s`
(JS `String.prototype.includes` on the raw characters). -/
def listContains : List Char → List Char → Bool
  | s, pat =>
    leadsWith s pat ||
      (match s with
       | [] => false
       | _ :: t => listContains t pat)

/-- JS `fullPath.includes(pattern)`. -/
def strIncludes (s pat : String) : Bool :=
  listContains s.toList pat.toList

/-- Remove the first occurrence of character code `n`
(JS `String.prototype.replace(c, "")` with a plain one-character pattern). -/
def removeFirstCode (n : Nat) : List Char → List Char
  | [] => []
  | c :: t => if c.toNat == n then t else c :: removeFirstCode n t

/-- JS `pattern.replace("$", "")`: drop the first dollar sign. -/
def removeFirstDollar (s : String) : String :=
  String.mk (removeFirstCode 36 s.toList)

/-- JS `line.replace("\t", "")`: drop the first tab. -/
def removeFirstTab (s : String) : String :=
  String.mk (removeFirstCode 9 s.toList)

/-- Split a char list at every occurrence of the character with code `sep`
(JS `String.prototype.split` with a one-character separator; empty pieces
are kept, as in JS). -/
def splitOnCode (sep : Nat) : List Char → List (List Char)
  | [] => [[]]
  | c :: t =>
    match splitOnCode sep t with
    | [] => [[]]
    | seg :: rest =>
      if c.toNat == sep then [] :: seg :: rest else (c :: seg) :: rest

/-- JS `s.split(sep)` for a one-character separator given by char code. -/
def jsSplit (s : String) (sep : Nat) : List String :=
  (splitOnCode sep s.toList).map String.mk

/-- ASCII whitespace (space, tab, LF, CR, VT, FF) — the characters JS
`String.prototype.trim` removes that can occur in the source constants. -/
def isWsp (c : Char) : Bool :=
  c.toNat == 32 || c.toNat == 9 || c.toNat == 10 ||
    c.toNat == 13 || c.toNat == 11 || c.toNat == 12

/-- JS `String.prototype.trim`. -/
def jsTrim (s : String) : String :=
  String.mk (((s.toList.dropWhile isWsp).reverse.dropWhile isWsp).reverse)

/-- JS `String.prototype.startsWith("#")`. -/
def startsWithHash (s : String) : Bool :=
  match s.toList with
  | [] => false
  | c :: _ => c.toNat == 35

/-- The basename characters of a path: everything after the last `/`.
Models the scan-from-the-end of Node's `path.extname`/`path.basename`. -/
def basenameChars (l : List Char) : List Char :=
  ((l.reverse.takeWhile (fun c => c != '/')).reverse)

/-- The suffix of a char list starting at its last `.`, when a dot exists. -/
def lastDotSuffix : List Char → Option (List Char)
  | [] => none
  | c :: t =>
    match lastDotSuffix t with
    | some s => some s
    | none => if c == '.' then some (c :: t) else none

/-- Extension of a basename: the suffix from the last dot, except that a dot
in first position does not start an extension (Node: `extname(".file") = ""`,
`extname("..") = ""`). -/
def extnameOfBase (b : List Char) : String :=
  match b with
  | [] => ""
  | _ :: t =>
    if b = ['.', '.'] then ""
    else String.mk ((lastDotSuffix t).getD [])

/-- Node `path.extname`. -/
def extname (p : String) : String :=
  extnameOfBase (basenameChars p.toList)

/-! ### Filter policy constants (source lines 672-736) -/

/-- The raw `defaultIgnorePatterns` template literal, byte for byte
(three lines are tab-indented in the source, the rest use four spaces). -/
def defaultIgnorePatterns : String :=
  "\n    ui\n    node_modules/\n    .git\n    dist/\n    build/\n    coverage/\n    .log$\n    .env$\n    .lock$\n    .md$\n    .min.js$\n    package-lock.json\n\t.vscode\n    .editorconfig\n    .gitignore\n    license\n\tLICENSE\n    tsconfig.json\n    .dockerignore\n\ttailwind.config.ts\n\n"

/-- The `supportedExtensions` constant string. -/
def supportedExtensions : String :=
  ".js .json .ts .jsx .tsx .py .java .cpp .rb .php .go .rs .swift .cs"

/-- The `fileTypePrefixes` object: extension to fence label. -/
def fileTypePrefixes : List (String × String) :=
  [(".ts", "```typescript"), (".tsx", "```typescript"),
   (".js", "```javascript"), (".jsx", "```javascript"),
   (".java", "```java"), (".c", "```c"), (".cpp", "```c++"),
   (".cs", "```csharp"), (".go", "```go"), (".py", "```python"),
   (".rb", "```ruby"), (".sh", "```bash"), (".md", "```markdown"),
   (".json", "```json"), (".yaml", "```yaml"), (".html", "```html"),
   (".css", "```css"), (".sql", "```sql")]

/-- `fileTypePrefixes[ext]` (JS property lookup, `undefined` as `none`). -/
def lookupFence (ext : String) : Option String :=
  (fileTypePrefixes.find? (fun kv => kv.1 == ext)).map (fun kv => kv.2)

/-- `addMarkdownPrefix` (source lines 721-725). -/
def addMarkdownPrefix (filename : String) : String :=
  ((lookupFence (extname filename)).getD "```") ++ "\n"

/-- `addMarkdownSuffix` (source lines 727-731). -/
def addMarkdownSuffix (filename : String) : String :=
  "\n" ++ ((lookupFence (extname filename)).getD "```")

/-- `isSupportedExtension` (source lines 733-736): split the whitelist on
spaces (char code 32) and test membership of the extension. -/
def isSupportedExtension (filename : String) : Bool :=
  (jsSplit supportedExtensions 32).contains (extname filename)

/-- `parseIgnorePatterns` (source lines 743-785): split on newlines
(char code 10), trim, drop the first tab, drop blank lines and `#` comments.
The regex construction in the source is dead code: the function returns the
plain pattern array (line 779). -/
def parseIgnorePatterns (patterns : String) : List String :=
  ((jsSplit patterns 10).map (fun line => removeFirstTab (jsTrim line))).filter
    (fun line => line != "" && !(startsWithHash line))

/-- The pattern list actually used by `getRepositoryData` (line 980). -/
def parsedIgnorePatterns : List String :=
  parseIgnorePatterns defaultIgnorePatterns

/-! ### The walk (source lines 797-873) -/

/-- `ExtractedFile` / Go-style `FileContent` (source lines 666-669). -/
structure FileContent where
  path : String
  content : String

/-- A JS `Map<string, FileContent>` as an association list. -/
abbrev FileMap := List (String × FileContent)

/-- JS `Map.prototype.set`: replace the value under an existing key,
otherwise append a new binding. -/
def mapSet (m : FileMap) (k : String) (v : FileContent) : FileMap :=
  if m.any (fun kv => kv.1 == k) then
    m.map (fun kv => if kv.1 == k then (k, v) else kv)
  else
    m ++ [(k, v)]

/-- JS `Map.prototype.has`. -/
def mapHasKey (m : FileMap) (k : String) : Bool :=
  m.any (fun kv => kv.1 == k)

/-- The `type()` of a visited entry, with the blob's `content()` outcome
(`Except` models the promise rejection of a failed read). -/
inductive EntryKind where
  | blob (content : Except String String)
  | tree
  | other

/-- One call of the `walk` `map` callback: the `filepath` argument and the
entry.  `isomorphic-git` visits the root with `filepath = ""` first and then
every tree entry in depth-first order with its repo-relative path. -/
structure VisitEntry where
  filepath : String
  kind : EntryKind

/-- The ignore-pattern loop of `walkTree` (source lines 828-833): the file is
skipped when, for some pattern, the path contains the pattern (first `$`
stripped) or the extension is unsupported. -/
def ignoreLoopHits (fullPath : String) : Bool :=
  parsedIgnorePatterns.any (fun pattern =>
    strIncludes fullPath (removeFirstDollar pattern) ||
      !(isSupportedExtension fullPath))

/-- The extra example/test check of `walkTree` (source lines 843-850). -/
def exampleTestHits (fullPath : String) : Bool :=
  strIncludes fullPath "examples" || strIncludes fullPath "example" ||
    strIncludes fullPath "tests" || strIncludes fullPath "test"

/-- A path makes the `walkTree` callback return before the extraction step. -/
def walkSkips (fullPath : String) : Bool :=
  ignoreLoopHits fullPath || exampleTestHits fullPath

/-- The fenced content stored for an accepted blob (source line 859-860):
`addMarkdownPrefix(filepath) + content + addMarkdownSuffix(filepath)`. -/
def formatFenced (filepath content : String) : String :=
  addMarkdownPrefix filepath ++ content ++ addMarkdownSuffix filepath

/-- One invocation of the `walkTree` `map` callback (source lines 812-871).
`currentPath` is `""` in the only call site, so `fullPath = filepath`.
A blob is read and stored only while `fileContents.size < 11`; a rejected
`entry.content()` promise propagates as the walk's failure. -/
def walkStep (m : FileMap) (e : VisitEntry) : Except String FileMap :=
  if e.filepath = "" then .ok m
  else if walkSkips e.filepath then .ok m
  else
    match e.kind with
    | .blob contentResult =>
      if m.length < 11 then
        match contentResult with
        | .error msg => .error msg
        | .ok content =>
          .ok (mapSet m e.filepath
            { path := e.filepath, content := formatFenced e.filepath content })
      else .ok m
    | .tree => .ok m
    | .other => .ok m

/-- `walkTree` (source lines 797-873): fold the callback over the visit
sequence, threading the mutable `fileContents` map; a per-entry failure
rejects the whole walk. -/
def walkTree (es : List VisitEntry) (m : FileMap) : Except String FileMap :=
  match es with
  | [] => .ok m
  | e :: rest =>
    match walkStep m e with
    | .error msg => .error msg
    | .ok m2 => walkTree rest m2

/-! ### The structure listing (source lines 882-926) -/

/-- JS `"  ".repeat(indentLevel)` and friends: `n` copies of `s`. -/
def strRepeat (s : String) (n : Nat) : String :=
  String.join (List.replicate n s)

/-- The `(directory)` / `(file)` / `(unknown)` annotation chosen by the
`type()` dispatch of `getRepositoryStructure`. -/
def kindAnnotation : EntryKind → String
  | .tree => "(directory)"
  | .blob _ => "(file)"
  | .other => "(unknown)"

/-- The line appended for one visited entry (source lines 908-921):
indentation is `filepath.split("/").length - 1` copies of two spaces. -/
def structureLine (e : VisitEntry) : String :=
  strRepeat "  " ((jsSplit e.filepath 47).length - 1) ++
    "- " ++ e.filepath ++ " " ++ kindAnnotation e.kind ++ "\n"

/-- `getRepositoryStructure` (source lines 882-926): a second walk over the
same tree that appends one line per visited entry, skipping only the root
(`filepath = ""`).  Blob contents are never read here, so the listing is
independent of filters, the cap and content-read failures.  Char code 47
is `/`. -/
def getRepositoryStructure (es : List VisitEntry) : String :=
  match es with
  | [] => ""
  | e :: rest =>
    (if e.filepath = "" then "" else structureLine e) ++
      getRepositoryStructure rest

/-! ### `getRepositoryData` (source lines 934-1000) -/

/-- The environment a `getRepositoryData` run interacts with: the outcome of
`clone`, the outcome of `listFiles` (the `commitOid` array), the visit
sequence of the cloned tree, and the outcome of the `fs.promises.rm`
cleanup.  Each field models one awaited external call. -/
structure Env where
  cloneResult : Except String Unit
  listFilesResult : Except String (List String)
  walkEntries : List VisitEntry
  rmResult : Except String Unit

/-- Observable side effects of a run that the claims talk about. -/
inductive GDAction where
  | rmDir
  | logCleanupError (msg : String)
deriving DecidableEq

/-- Result plus side-effect trace of one `getRepositoryData` run. -/
structure GDOutcome where
  result : Except String (FileMap × String)
  trace : List GDAction

/-- The `try` body of `getRepositoryData` (source lines 941-988): clone,
list files for the ref (`branch || "HEAD"`), fail when the array is empty,
walk the tree into a fresh map, build the structure string. -/
def getRepositoryDataBody (env : Env) (branch : String) :
    Except String (FileMap × String) :=
  match env.cloneResult with
  | .error e => .error e
  | .ok _ =>
    match env.listFilesResult with
    | .error e => .error e
    | .ok commitOid =>
      if commitOid.length = 0 then
        .error ("Could not find commit for branch: " ++
          (if branch = "" then "HEAD" else branch))
      else
        match walkTree env.walkEntries [] with
        | .error e => .error e
        | .ok fileContents =>
          .ok (fileContents, getRepositoryStructure env.walkEntries)

/-- `getRepositoryData` (source lines 934-1000).  The `catch` wraps every
failure of the body in a single generic `Error` whose message prepends
`"Failed to get repository data: "`; the `finally` always runs
`fs.promises.rm` on the temporary directory and swallows (only logs) a
cleanup failure, so the primary outcome is never replaced. -/
def getRepositoryData (env : Env) (branch : String) : GDOutcome :=
  let primary : Except String (FileMap × String) :=
    match getRepositoryDataBody env branch with
    | .ok v => .ok v
    | .error e => .error ("Failed to get repository data: " ++ e)
  let cleanupTrace : List GDAction :=
    match env.rmResult with
    | .ok _ => [GDAction.rmDir]
    | .error ce => [GDAction.rmDir, GDAction.logCleanupError ce]
  { result := primary, trace := cleanupTrace }

/-! ### The structural summarizer (source lines 147-658)

`parseTypeScriptApiAndStructure` walks a `ts.SourceFile` produced by the
TypeScript compiler (an external library).  The AST type `TsNode` below
models the node kinds the specification's testable properties exercise:
module root, import declarations, function declarations, blocks, `if`,
`return`, expression statements and call expressions.  Expression positions
that the summarizer only ever reads with `.getText()` (conditions, returned
expressions, callees, arguments, type annotations) are carried as their
source text, matching how the summarizer consumes them.  Identifiers and
literals are token nodes (`ts.isToken`) which `processNode` discards
(line 248), so they contribute no children of their own. -/

/-- One element of `LlmAstNode.importedElements` (source lines 183-188).
`aliasName` is the `alias` field.  `none` models an absent (`undefined`)
field. -/
structure ImportedElement where
  name : String
  aliasName : Option String := none
  isDefault : Option Bool := none
  isNamespace : Option Bool := none

/-- One parameter of `LlmAstNode.signature` (source lines 161-165). -/
structure SigParam where
  name : String
  type : String
  isOptional : Bool

/-- `LlmAstNode.signature` (source lines 160-167). -/
structure Signature where
  parameters : List SigParam
  returnType : String

/-- The scalar fields of `LlmAstNode` (source lines 147-200).  `getJSDoc`
is modelled as producing `none`: the claims' inputs carry no doc comments
(JSDoc attachment lives inside the TypeScript compiler API). -/
structure LNodeCore where
  ty : String
  name : Option String := none
  jsDoc : Option String := none
  modifiers : List String := []
  signature : Option Signature := none
  value : Option String := none
  moduleSpecifier : Option String := none
  importedElements : Option (List ImportedElement) := none

/-- `LlmAstNode` with its two recursive fields `logicFlow` and `children`. -/
inductive LNode where
  | mk (core : LNodeCore) (logicFlow : Option (List LNode))
      (children : Option (List LNode))

def LNode.core : LNode → LNodeCore
  | .mk c _ _ => c

def LNode.logicFlow : LNode → Option (List LNode)
  | .mk _ lf _ => lf

def LNode.children : LNode → Option (List LNode)
  | .mk _ _ ch => ch

def LNode.ty (n : LNode) : String := n.core.ty

def LNode.nodeName (n : LNode) : Option String := n.core.name

def LNode.value (n : LNode) : Option String := n.core.value

def LNode.moduleSpecifier (n : LNode) : Option String := n.core.moduleSpecifier

def LNode.importedElements (n : LNode) : Option (List ImportedElement) :=
  n.core.importedElements

/-- The children list, `undefined` read as empty. -/
def LNode.childrenList (n : LNode) : List LNode := n.children.getD []

/-- A parameter node: `name` identifier text, optional type annotation text,
presence of the `?` token. -/
structure ParamAst where
  name : String
  typeText : Option String
  questionToken : Bool

/-- `ts.ImportSpecifier`: for `Bar as Baz` the compiler sets
`propertyName = Bar` (the exported name) and `name = Baz` (the local
binding); for a plain `Foo` it sets `propertyName = undefined`,
`name = Foo`. -/
structure ImportSpecifierAst where
  propertyName : Option String
  name : String

/-- `ts.NamedImportBindings`: `{ ... }` or `* as ns`. -/
inductive NamedBindingsAst where
  | namedImports (elements : List ImportSpecifierAst)
  | namespaceImport (name : String)

/-- `ts.ImportClause`: optional default-import name plus optional named
bindings. -/
structure ImportClauseAst where
  name : Option String
  namedBindings : Option NamedBindingsAst

/-- The modelled TypeScript AST nodes (see the section comment). -/
inductive TsNode where
  | sourceFile (fileName : String) (statements : List TsNode)
  | importDeclaration (moduleSpecifierText : String)
      (importClause : Option ImportClauseAst)
  | functionDeclaration (modifiers : List String) (name : Option String)
      (parameters : List ParamAst) (returnTypeText : Option String)
      (body : Option TsNode)
  | block (statements : List TsNode)
  | ifStatement (conditionText : String) (thenStatement : TsNode)
      (elseStatement : Option TsNode)
  | returnStatement (expressionText : Option String)
  | expressionStatement (expression : TsNode)
  | callExpression (expressionText : String) (argumentTexts : List String)

/-- `ts.SyntaxKind[node.kind]` for the modelled constructors. -/
def tsKindName : TsNode → String
  | .sourceFile _ _ => "SourceFile"
  | .importDeclaration _ _ => "ImportDeclaration"
  | .functionDeclaration _ _ _ _ _ => "FunctionDeclaration"
  | .block _ => "Block"
  | .ifStatement _ _ _ => "IfStatement"
  | .returnStatement _ => "ReturnStatement"
  | .expressionStatement _ => "ExpressionStatement"
  | .callExpression _ _ => "CallExpression"

/-- `fileName.replace(/\.ts(x)?$/, '')` (source line 259). -/
def cleanFileName (fn : String) : String :=
  if fn.endsWith ".tsx" then fn.dropRight 4
  else if fn.endsWith ".ts" then fn.dropRight 3
  else fn

/-- `text.replace(/['"]/g, '')` (source line 272): drop every double quote
(code 34) and single quote (code 39). -/
def stripQuotes (s : String) : String :=
  String.mk (s.toList.filter (fun c => c.toNat != 34 && c.toNat != 39))

/-- `getTypeString` (source lines 239-243): annotation text, else `any`. -/
def getTypeString (typeText : Option String) : String :=
  typeText.getD "any"

/-- The imported-element list built for an import clause
(source lines 275-297): default import first, then named or namespace
bindings. -/
def importedElementsOf : Option ImportClauseAst → List ImportedElement
  | none => []
  | some clause =>
    (match clause.name with
     | some n => [{ name := n, isDefault := some true }]
     | none => []) ++
    (match clause.namedBindings with
     | some (.namedImports elements) =>
       elements.map (fun element =>
         { name := element.name, aliasName := element.propertyName })
     | some (.namespaceImport n) => [{ name := n, isNamespace := some true }]
     | none => [])

/-- The non-null results collected from a single optional child. -/
def optToList : Option LNode → List LNode
  | none => []
  | some x => [x]

/-- The default branch of `processNode` (source lines 510-534): keep the
node only when some child produced a result, tagging it
`GenericContainer (<kind>)`. -/
def genericContainer (kindStr : String) (cs : List LNode) : Option LNode :=
  if cs.isEmpty then none
  else some (.mk { ty := "GenericContainer (" ++ kindStr ++ ")" } none (some cs))

/-- The default branch of `processFunctionLogicNode` (source lines 620-642):
keep recognisable nested logic under a `NestedLogic (<kind>)` wrapper.
The source also stores `node.getText()` in `value`; the raw source text of
these unexercised wrappers is not reproduced by the embedding. -/
def nestedLogic (kindStr : String) (cs : List LNode) : Option LNode :=
  if cs.isEmpty then none
  else some (.mk { ty := "NestedLogic (" ++ kindStr ++ ")" } none (some cs))

mutual

/-- `processNode` (source lines 246-545) on the modelled node kinds. -/
def processNode : TsNode → Option LNode
  | .sourceFile fileName statements =>
    some (.mk { ty := "Module", name := some (cleanFileName fileName) }
      none (some (processNodeList statements)))
  | .importDeclaration moduleSpecifierText importClause =>
    some (.mk
      { ty := "Import"
        moduleSpecifier := some (stripQuotes moduleSpecifierText)
        importedElements := some (importedElementsOf importClause) }
      none none)
  | .functionDeclaration modifiers name parameters returnTypeText body =>
    some (.mk
      { ty := "Function"
        name := name
        modifiers := modifiers
        signature := some
          { parameters := parameters.map (fun param =>
              { name := param.name
                type := getTypeString param.typeText
                isOptional := param.questionToken })
            returnType := getTypeString returnTypeText } }
      (match body with
       | none => none
       | some b => some (logicChildrenOf b))
      none)
  | .block statements => genericContainer "Block" (processNodeList statements)
  | .ifStatement _ thenStatement none =>
    genericContainer "IfStatement" (optToList (processNode thenStatement))
  | .ifStatement _ thenStatement (some elseStatement) =>
    genericContainer "IfStatement"
      (optToList (processNode thenStatement) ++
        optToList (processNode elseStatement))
  | .returnStatement _ => none
  | .expressionStatement expression =>
    genericContainer "ExpressionStatement" (optToList (processNode expression))
  | .callExpression _ _ => none

/-- The non-null results of `processNode` over a child list
(the `forEachChild` + `push` pattern of the source). -/
def processNodeList : List TsNode → List LNode
  | [] => []
  | x :: xs =>
    match processNode x with
    | some y => y :: processNodeList xs
    | none => processNodeList xs

/-- `processFunctionLogicNode` (source lines 549-645) on the modelled node
kinds. -/
def processFunctionLogicNode : TsNode → Option LNode
  | .ifStatement conditionText thenStatement elseStatement =>
    some (.mk
      { ty := "IfStatement", name := some ("if (" ++ conditionText ++ ")") }
      none
      (some
        ((match processFunctionLogicNode thenStatement with
          | some thenBlock => [.mk { ty := "ThenBlock" } none (some [thenBlock])]
          | none => []) ++
         (match elseStatement with
          | none => []
          | some e =>
            match processFunctionLogicNode e with
            | some elseBlock => [.mk { ty := "ElseBlock" } none (some [elseBlock])]
            | none => []))))
  | .returnStatement expressionText =>
    some (.mk
      { ty := "ReturnStatement", value := some (expressionText.getD "void") }
      none none)
  | .callExpression expressionText argumentTexts =>
    some (.mk { ty := "FunctionCall", name := some expressionText } none
      (some (argumentTexts.map (fun arg =>
        .mk { ty := "Argument", value := some arg } none none))))
  | .expressionStatement expression => processFunctionLogicNode expression
  | .block statements =>
    match processLogicList statements with
    | [] => none
    | cs => some (.mk { ty := "Block" } none (some cs))
  | .sourceFile _ statements =>
    nestedLogic "SourceFile" (processLogicList statements)
  | .importDeclaration _ _ => none
  | .functionDeclaration _ _ _ _ none => none
  | .functionDeclaration _ _ _ _ (some b) =>
    nestedLogic "FunctionDeclaration" (optToList (processFunctionLogicNode b))

/-- The non-null results of `processFunctionLogicNode` over a child list. -/
def processLogicList : List TsNode → List LNode
  | [] => []
  | x :: xs =>
    match processFunctionLogicNode x with
    | some y => y :: processLogicList xs
    | none => processLogicList xs

/-- `ts.forEachChild(node, child => push processFunctionLogicNode child)` —
the logic collected from a node's direct children (used for function
bodies, source lines 348-356). -/
def logicChildrenOf : TsNode → List LNode
  | .sourceFile _ statements => processLogicList statements
  | .importDeclaration _ _ => []
  | .functionDeclaration _ _ _ _ none => []
  | .functionDeclaration _ _ _ _ (some b) =>
    optToList (processFunctionLogicNode b)
  | .block statements => processLogicList statements
  | .ifStatement _ thenStatement none =>
    optToList (processFunctionLogicNode thenStatement)
  | .ifStatement _ thenStatement (some elseStatement) =>
    optToList (processFunctionLogicNode thenStatement) ++
      optToList (processFunctionLogicNode elseStatement)
  | .returnStatement _ => []
  | .expressionStatement expression =>
    optToList (processFunctionLogicNode expression)
  | .callExpression _ _ => []

end

mutual

/-- The summary subtree rooted at `n` holds a `ReturnStatement` node whose
`value` is `v` (descending through `children`). -/
def containsReturnVal : LNode → String → Bool
  | .mk core _ ch, v =>
    (core.ty == "ReturnStatement" && core.value == some v) ||
      containsReturnValOpt ch v

def containsReturnValOpt : Option (List LNode) → String → Bool
  | none, _ => false
  | some l, v => containsReturnValList l v

def containsReturnValList : List LNode → String → Bool
  | [], _ => false
  | x :: xs, v => containsReturnVal x v || containsReturnValList xs v

end

/-! ### Supporting lemmas -/

set_option maxRecDepth 100000

theorem toList_append (a b : String) : (a ++ b).toList = a.toList ++ b.toList :=
  rfl

theorem leadsWith_nil : ∀ (s : List Char), leadsWith s [] = true
  | [] => rfl
  | _ :: _ => rfl

theorem leadsWith_self_append : ∀ (p r : List Char), leadsWith (p ++ r) p = true
  | [], r => by rw [List.nil_append]; exact leadsWith_nil r
  | a :: p, r => by simp [leadsWith, leadsWith_self_append p r]

theorem listContains_of_leads {s p : List Char} (h : leadsWith s p = true) :
    listContains s p = true := by
  rw [listContains.eq_def]
  simp [h]

theorem listContains_append_left :
    ∀ (l r p : List Char), listContains r p = true →
      listContains (l ++ r) p = true
  | [], _, _, h => h
  | a :: l, r, p, h => by
    rw [List.cons_append, listContains.eq_def]
    simp [listContains_append_left l r p h]

theorem listContains_middle (a p b : List Char) :
    listContains (a ++ (p ++ b)) p = true :=
  listContains_append_left a _ p
    (listContains_of_leads (leadsWith_self_append p b))

theorem strIncludes_middle (pre pat post : String) :
    strIncludes (pre ++ (pat ++ post)) pat = true := by
  unfold strIncludes
  rw [toList_append, toList_append]
  exact listContains_middle _ _ _

theorem strIncludes_self_append (s r : String) :
    strIncludes (s ++ r) s = true := by
  unfold strIncludes
  rw [toList_append]
  exact listContains_of_leads (leadsWith_self_append _ _)

theorem strIncludes_append_left {r pat : String} (l : String)
    (h : strIncludes r pat = true) : strIncludes (l ++ r) pat = true := by
  unfold strIncludes at h ⊢
  rw [toList_append]
  exact listContains_append_left _ _ _ h

theorem takeWhile_append_all {p : Char → Bool} :
    ∀ (l1 l2 : List Char), (∀ a ∈ l1, p a = true) →
      (l1 ++ l2).takeWhile p = l1 ++ l2.takeWhile p
  | [], l2, _ => by simp
  | a :: l1, l2, h => by
    simp only [List.cons_append, List.takeWhile_cons]
    rw [h a (by simp)]
    simp [takeWhile_append_all l1 l2 (fun x hx => h x (by simp [hx]))]

theorem basenameChars_no_slash {s : List Char}
    (h : ∀ c ∈ s, (c != '/') = true) : basenameChars s = s := by
  unfold basenameChars
  have : s.reverse.takeWhile (fun c => c != '/') = s.reverse := by
    have := takeWhile_append_all (p := fun c => c != '/') s.reverse []
      (fun c hc => h c (List.mem_reverse.mp hc))
    simpa using this
  rw [this, List.reverse_reverse]

theorem basenameChars_slash_append {s : List Char} (a : List Char)
    (h : ∀ c ∈ s, (c != '/') = true) :
    basenameChars (a ++ '/' :: s) = s := by
  unfold basenameChars
  rw [List.reverse_append, List.reverse_cons, List.append_assoc]
  rw [takeWhile_append_all s.reverse _ (fun c hc => h c (List.mem_reverse.mp hc))]
  simp [List.takeWhile]

theorem ignoreLoopHits_of_pattern {p pattern : String}
    (hmem : pattern ∈ parsedIgnorePatterns)
    (hinc : strIncludes p (removeFirstDollar pattern) = true) :
    ignoreLoopHits p = true := by
  unfold ignoreLoopHits
  rw [List.any_eq_true]
  exact ⟨pattern, hmem, by simp [hinc]⟩

theorem ignoreLoopHits_of_unsupported {p : String}
    (h : isSupportedExtension p = false) : ignoreLoopHits p = true := by
  unfold ignoreLoopHits
  rw [List.any_eq_true]
  refine ⟨"ui", by decide, ?_⟩
  simp [h]

theorem walkSkips_of_ignore {p : String} (h : ignoreLoopHits p = true) :
    walkSkips p = true := by
  unfold walkSkips
  simp [h]

theorem walkSkips_of_example {p : String} (h : exampleTestHits p = true) :
    walkSkips p = true := by
  unfold walkSkips
  simp [h]

theorem unsupported_of_extname_empty {p : String} (h : extname p = "") :
    isSupportedExtension p = false := by
  unfold isSupportedExtension
  rw [h]
  decide

/-- The literal path segments the specification's filter property names. -/
def segTargets : List String :=
  ["node_modules", ".git", "dist", "build", "coverage",
   "examples", "example", "tests", "test"]

/-- `p` contains `s` as a complete path segment: an occurrence of `s`
bounded on the left by the start of the path or a `/`, and on the right by
the end of the path or a `/`. -/
def containsSegment (p s : String) : Prop :=
  ∃ pre post : String,
    p = pre ++ s ++ post ∧
    (pre = "" ∨ ∃ pre2, pre = pre2 ++ "/") ∧
    (post = "" ∨ ∃ post2, post = "/" ++ post2)

theorem extname_of_basename {p : String} {b : List Char}
    (h : basenameChars p.toList = b) : extname p = extnameOfBase b := by
  unfold extname
  rw [h]

/-- A path whose basename is a (slash-free, extensionless) segment `s` has
an unsupported extension, hence the ignore loop rejects it. -/
theorem walkSkips_of_last_segment {p : String} {s : List Char}
    (hb : basenameChars p.toList = s)
    (he : extnameOfBase s = "") : walkSkips p = true :=
  walkSkips_of_ignore (ignoreLoopHits_of_unsupported
    (unsupported_of_extname_empty (by rw [extname_of_basename hb, he])))

theorem walkSkips_of_pattern (pattern : String) {p : String}
    (hmem : pattern ∈ parsedIgnorePatterns)
    (hinc : strIncludes p (removeFirstDollar pattern) = true) :
    walkSkips p = true :=
  walkSkips_of_ignore (ignoreLoopHits_of_pattern hmem hinc)

/-- Segments like `node_modules`, `dist`, `build`, `coverage`: their ignore
pattern carries a trailing slash, so a path containing the segment as a
directory matches the pattern, while a path ending in the bare segment has
no extension and fails the whitelist. -/
theorem walkSkips_of_dir_segment (pat : String) {p s : String}
    (hpat : pat ∈ parsedIgnorePatterns)
    (hpatEq : removeFirstDollar pat = s ++ "/")
    (hslash : ∀ c ∈ s.toList, (c != '/') = true)
    (hext : extnameOfBase s.toList = "")
    (hseg : containsSegment p s) : walkSkips p = true := by
  obtain ⟨pre, post, hp, hpre, hpost⟩ := hseg
  have hsl : ("/" : String).toList = ['/'] := rfl
  rcases hpost with hpost | ⟨post2, hpost⟩
  · subst hpost
    have hb : basenameChars p.toList = s.toList := by
      subst hp
      rcases hpre with hpre | ⟨pre2, hpre⟩
      · subst hpre
        have h0 : (("" : String) ++ s ++ "").toList = s.toList := by
          rw [toList_append, toList_append]
          simp
        rw [h0]
        exact basenameChars_no_slash hslash
      · subst hpre
        have h0 : (pre2 ++ "/" ++ s ++ "").toList =
            pre2.toList ++ '/' :: s.toList := by
          rw [toList_append, toList_append, toList_append, hsl]
          simp
        rw [h0]
        exact basenameChars_slash_append _ hslash
    exact walkSkips_of_last_segment hb hext
  · subst hpost
    apply walkSkips_of_pattern pat hpat
    rw [hpatEq]
    subst hp
    have h1 : pre ++ s ++ ("/" ++ post2) = pre ++ ((s ++ "/") ++ post2) := by
      rw [String.append_assoc pre s, ← String.append_assoc s "/" post2]
    rw [h1]
    exact strIncludes_middle pre (s ++ "/") post2

/-- Any path containing one of the specification's literal segments is
rejected by the `walkTree` inclusion check. -/
theorem walkSkips_of_segment {p s : String} (hs : s ∈ segTargets)
    (hseg : containsSegment p s) : walkSkips p = true := by
  have hmid : strIncludes p s = true := by
    obtain ⟨pre, post, hp, _, _⟩ := hseg
    subst hp
    rw [String.append_assoc pre s post]
    exact strIncludes_middle pre s post
  simp only [segTargets, List.mem_cons, List.not_mem_nil, or_false] at hs
  rcases hs with rfl | rfl | rfl | rfl | rfl | rfl | rfl | rfl | rfl
  · exact walkSkips_of_dir_segment "node_modules/" (by decide)
      (by decide) (by decide) (by decide) hseg
  · exact walkSkips_of_pattern ".git" (by decide)
      (by rw [show removeFirstDollar ".git" = ".git" from by decide]; exact hmid)
  · exact walkSkips_of_dir_segment "dist/" (by decide)
      (by decide) (by decide) (by decide) hseg
  · exact walkSkips_of_dir_segment "build/" (by decide)
      (by decide) (by decide) (by decide) hseg
  · exact walkSkips_of_dir_segment "coverage/" (by decide)
      (by decide) (by decide) (by decide) hseg
  · exact walkSkips_of_example (by unfold exampleTestHits; simp [hmid])
  · exact walkSkips_of_example (by unfold exampleTestHits; simp [hmid])
  · exact walkSkips_of_example (by unfold exampleTestHits; simp [hmid])
  · exact walkSkips_of_example (by unfold exampleTestHits; simp [hmid])

theorem mapSet_length (m : FileMap) (k : String) (v : FileContent) :
    (mapSet m k v).length ≤ m.length + 1 := by
  unfold mapSet
  split
  · rw [List.length_map]
    omega
  · rw [List.length_append]
    simp

theorem mem_mapSet {m : FileMap} {k : String} {v : FileContent}
    {x : String × FileContent} (h : x ∈ mapSet m k v) :
    x ∈ m ∨ x = (k, v) := by
  unfold mapSet at h
  split at h
  · rw [List.mem_map] at h
    obtain ⟨y, hy, hyx⟩ := h
    by_cases hk : (y.1 == k) = true
    · right
      rw [if_pos hk] at hyx
      exact hyx.symm
    · left
      rw [if_neg hk] at hyx
      rwa [← hyx]
  · rw [List.mem_append] at h
    rcases h with h | h
    · exact Or.inl h
    · exact Or.inr (List.mem_singleton.mp h)

/-- Case analysis of one successful `walkTree` callback invocation: either
the map is unchanged, or the entry was a filter-passing blob under the cap
and its fenced content was stored under its path. -/
theorem walkStep_ok_cases {m : FileMap} {e : VisitEntry} {m2 : FileMap}
    (h : walkStep m e = .ok m2) :
    m2 = m ∨
      (e.filepath ≠ "" ∧ walkSkips e.filepath = false ∧ m.length < 11 ∧
        ∃ c, m2 = mapSet m e.filepath
          { path := e.filepath, content := formatFenced e.filepath c }) := by
  unfold walkStep at h
  split at h
  · exact Or.inl (Except.ok.inj h).symm
  · rename_i hne
    split at h
    · exact Or.inl (Except.ok.inj h).symm
    · rename_i hskip
      rcases e with ⟨fp, k⟩
      cases k with
      | blob contentResult =>
        simp only at h
        split at h
        · rename_i hlen
          cases contentResult with
          | error msg => exact absurd h (by simp)
          | ok c =>
            right
            refine ⟨hne, by simpa using hskip, hlen, c, ?_⟩
            exact (Except.ok.inj h).symm
        · exact Or.inl (Except.ok.inj h).symm
      | tree => exact Or.inl (Except.ok.inj h).symm
      | other => exact Or.inl (Except.ok.inj h).symm

/-- The size invariant of the walk: the callback only stores a blob while
`size < 11`, so a successful walk never grows the map beyond 11 entries. -/
theorem walkTree_ok_length :
    ∀ (es : List VisitEntry) (m0 m : FileMap),
      walkTree es m0 = .ok m → m0.length ≤ 11 → m.length ≤ 11
  | [], m0, m, h, h0 => by
    rw [walkTree] at h
    rwa [← Except.ok.inj h]
  | e :: rest, m0, m, h, h0 => by
    rw [walkTree] at h
    split at h
    · exact absurd h (by simp)
    · rename_i m1 hstep
      rcases walkStep_ok_cases hstep with rfl | ⟨_, _, hlen, c, rfl⟩
      · exact walkTree_ok_length rest m1 m h h0
      · exact walkTree_ok_length rest _ m h
          (le_trans (mapSet_length m0 e.filepath _) (by omega))

/-- Provenance invariant of the walk: every binding of the final map either
was already present, or records a filter-passing path mapped to its fenced
content. -/
theorem walkTree_mem_src :
    ∀ (es : List VisitEntry) (m0 m : FileMap),
      walkTree es m0 = .ok m →
      ∀ kv : String × FileContent, kv ∈ m →
        kv ∈ m0 ∨
          (walkSkips kv.1 = false ∧ kv.2.path = kv.1 ∧
            ∃ c, kv.2.content = formatFenced kv.1 c)
  | [], m0, m, h, kv, hkv => by
    rw [walkTree] at h
    rw [← Except.ok.inj h] at hkv
    exact Or.inl hkv
  | e :: rest, m0, m, h, kv, hkv => by
    rw [walkTree] at h
    split at h
    · exact absurd h (by simp)
    · rename_i m1 hstep
      rcases walkTree_mem_src rest m1 m h kv hkv with h1 | h1
      · rcases walkStep_ok_cases hstep with rfl | ⟨_, hskip, _, c, rfl⟩
        · exact Or.inl h1
        · rcases mem_mapSet h1 with h2 | h2
          · exact Or.inl h2
          · right
            rw [h2]
            exact ⟨hskip, rfl, c, rfl⟩
      · exact Or.inr h1

theorem mapHasKey_iff {m : FileMap} {p : String} :
    mapHasKey m p = true ↔ ∃ fc, (p, fc) ∈ m := by
  unfold mapHasKey
  rw [List.any_eq_true]
  constructor
  · rintro ⟨⟨k, fc⟩, hm, hk⟩
    rw [beq_iff_eq] at hk
    subst hk
    exact ⟨fc, hm⟩
  · rintro ⟨fc, hm⟩
    exact ⟨(p, fc), hm, by simp⟩

/-- A path the filter rejects is never a key of a successful walk's map. -/
theorem walk_no_skipped_key {es : List VisitEntry} {m : FileMap} {p : String}
    (hw : walkTree es [] = .ok m) (hs : walkSkips p = true) :
    mapHasKey m p = false := by
  by_contra hc
  rw [Bool.not_eq_false, mapHasKey_iff] at hc
  obtain ⟨fc, hm⟩ := hc
  rcases walkTree_mem_src es [] m hw (p, fc) hm with h0 | ⟨hsk, _⟩
  · exact absurd h0 (List.not_mem_nil _)
  · rw [hs] at hsk
    exact absurd hsk (by simp)

/-- Splitting a walk at a list boundary. -/
theorem walkTree_append :
    ∀ (l1 l2 : List VisitEntry) (m0 : FileMap),
      walkTree (l1 ++ l2) m0 =
        match walkTree l1 m0 with
        | .error msg => .error msg
        | .ok m1 => walkTree l2 m1
  | [], l2, m0 => by rw [List.nil_append, walkTree]
  | e :: t, l2, m0 => by
    rw [List.cons_append, walkTree]
    cases hstep : walkStep m0 e with
    | error msg => rw [walkTree, hstep]
    | ok m2 =>
      rw [walkTree, hstep]
      exact walkTree_append t l2 m2

/-- Every non-root visited entry contributes its line to the structure
listing. -/
theorem getRepositoryStructure_contains :
    ∀ (es : List VisitEntry) (e : VisitEntry), e ∈ es → e.filepath ≠ "" →
      strIncludes (getRepositoryStructure es) (structureLine e) = true
  | [], e, he, _ => absurd he (List.not_mem_nil e)
  | x :: rest, e, he, hne => by
    rw [getRepositoryStructure]
    rcases List.mem_cons.mp he with rfl | he2
    · rw [if_neg hne]
      exact strIncludes_self_append _ _
    · exact strIncludes_append_left _
        (getRepositoryStructure_contains rest e he2 hne)

theorem processNodeList_append :
    ∀ (l1 l2 : List TsNode),
      processNodeList (l1 ++ l2) = processNodeList l1 ++ processNodeList l2
  | [], l2 => by rw [List.nil_append, processNodeList, List.nil_append]
  | x :: t, l2 => by
    rw [List.cons_append, processNodeList, processNodeList]
    cases processNode x with
    | none => exact processNodeList_append t l2
    | some y => rw [processNodeList_append t l2, List.cons_append]

theorem processNodeList_cons_some {x : TsNode} {y : LNode} (t : List TsNode)
    (h : processNode x = some y) :
    processNodeList (x :: t) = y :: processNodeList t := by
  rw [processNodeList, h]

/-! ### Claim inputs -/

/-- Eleven distinct filter-passing blobs (used against the claimed cap of
ten). -/
def c1Entries : List VisitEntry :=
  [⟨"a0.go", .blob (.ok "x")⟩, ⟨"a1.go", .blob (.ok "x")⟩,
   ⟨"a2.go", .blob (.ok "x")⟩, ⟨"a3.go", .blob (.ok "x")⟩,
   ⟨"a4.go", .blob (.ok "x")⟩, ⟨"a5.go", .blob (.ok "x")⟩,
   ⟨"a6.go", .blob (.ok "x")⟩, ⟨"a7.go", .blob (.ok "x")⟩,
   ⟨"a8.go", .blob (.ok "x")⟩, ⟨"a9.go", .blob (.ok "x")⟩,
   ⟨"b0.go", .blob (.ok "x")⟩]

/-- A walk in which the first blob's content read fails while an eligible
sibling follows. -/
def c4Entries : List VisitEntry :=
  [⟨"a.ts", .blob (.error "boom")⟩, ⟨"b.ts", .blob (.ok "x")⟩]

/-! ### Claims -/

/-- C1 (counterexample): the extracted-file map is NOT capped at 10.  On a
tree of eleven eligible blobs the walk accepts all eleven: the guard
`fileContents.size < 11` still admits an eleventh file once ten have been
accepted, so the claimed bound of 10 fails. -/
theorem C1_counterexample :
    (walkTree c1Entries []).map (fun m => decide (m.length ≤ 10)) =
      Except.ok false := by
  rfl

/-- C1 (amended): the extracted-file map of a successful walk contains at
most 11 entries — the guard `fileContents.size < 11` stops further blobs
once eleven files have been accepted. -/
theorem C1_cap_eleven (es : List VisitEntry) (m : FileMap)
    (h : walkTree es [] = .ok m) : m.length ≤ 11 :=
  walkTree_ok_length es [] m h (by simp)

/-- C1 (witness for the amended cap theorem). -/
theorem C1_cap_eleven_witness :
    ([("a.ts", ({ path := "a.ts", content := "```typescript\nx\n```typescript" } : FileContent))] : FileMap).length ≤ 11 :=
  C1_cap_eleven [⟨"a.ts", .blob (.ok "x")⟩]
    [("a.ts", { path := "a.ts", content := "```typescript\nx\n```typescript" })]
    (by rfl)

/-- C2: the walker's inclusion check rejects any path containing one of the
literal segments `node_modules`, `.git`, `dist`, `build`, `coverage`,
`examples`, `example`, `tests`, `test` (a segment occurrence is bounded by
the path ends or `/`), and any path whose extension is outside the
supported whitelist; such a path is never a key of the extracted-file map
of any successful walk. -/
theorem C2_filter_rejects (p : String)
    (h : (∃ s ∈ segTargets, containsSegment p s) ∨
      isSupportedExtension p = false) :
    walkSkips p = true ∧
      ∀ (es : List VisitEntry) (m : FileMap),
        walkTree es [] = .ok m → mapHasKey m p = false := by
  have hskip : walkSkips p = true := by
    rcases h with ⟨s, hs, hseg⟩ | hunsup
    · exact walkSkips_of_segment hs hseg
    · exact walkSkips_of_ignore (ignoreLoopHits_of_unsupported hunsup)
  exact ⟨hskip, fun es m hw => walk_no_skipped_key hw hskip⟩

/-- C2 (witness): `src/node_modules/x.ts` contains the segment
`node_modules` and is rejected. -/
theorem C2_filter_rejects_witness :
    walkSkips "src/node_modules/x.ts" = true ∧
      ∀ (es : List VisitEntry) (m : FileMap),
        walkTree es [] = .ok m →
          mapHasKey m "src/node_modules/x.ts" = false :=
  C2_filter_rejects "src/node_modules/x.ts"
    (Or.inl ⟨"node_modules", by decide,
      "src/", "/x.ts", by decide, Or.inr ⟨"src", by decide⟩,
      Or.inr ⟨"x.ts", by decide⟩⟩)

/-- C4 (counterexample): a failing content read of a single blob does NOT
leave that path out while the walk continues — it rejects the entire walk.
Here the first blob's read fails and the eligible sibling `b.ts` is lost
with it. -/
theorem C4_counterexample : walkTree c4Entries [] = Except.error "boom" := by
  rfl

/-- C4 (amended): when any filter-passing blob under the cap has a failing
content read, `walkTree` aborts with exactly that error (nothing is
returned for the siblings); this is the only per-entry failure mode. -/
theorem C4_read_failure_aborts (es1 rest : List VisitEntry)
    (p msg : String) (m1 : FileMap)
    (h1 : walkTree es1 [] = .ok m1) (hlen : m1.length < 11)
    (hne : p ≠ "") (hskip : walkSkips p = false) :
    walkTree (es1 ++ ⟨p, .blob (.error msg)⟩ :: rest) [] =
      Except.error msg := by
  rw [walkTree_append, h1]
  show walkTree (⟨p, EntryKind.blob (Except.error msg)⟩ :: rest) m1 =
    Except.error msg
  rw [walkTree]
  have hstep : walkStep m1 ⟨p, .blob (.error msg)⟩ = .error msg := by
    unfold walkStep
    rw [if_neg hne, if_neg (by simp [hskip])]
    simp only
    rw [if_pos hlen]
  rw [hstep]

/-- C4 (witness for the amended abort theorem). -/
theorem C4_read_failure_aborts_witness :
    walkTree ([] ++ ⟨"c.ts", .blob (.error "E")⟩ :: [⟨"d.ts", .blob (.ok "y")⟩]) [] =
      Except.error "E" :=
  C4_read_failure_aborts [] [⟨"d.ts", .blob (.ok "y")⟩] "c.ts" "E" []
    (by rfl) (by decide) (by decide) (by decide)

/-- C6: the structure listing contains, for every visited directory, file or
unknown entry (the root `""` aside), one line of the form
`<2·depth spaces>- <path> (directory|file|unknown)\n`, regardless of filter
exclusion or the extraction cap — `getRepositoryStructure` consults
neither. -/
theorem C6_structure_complete (es : List VisitEntry) (e : VisitEntry)
    (he : e ∈ es) (hne : e.filepath ≠ "") :
    strIncludes (getRepositoryStructure es)
      (strRepeat "  " ((jsSplit e.filepath 47).length - 1) ++ "- " ++
        e.filepath ++ " " ++ kindAnnotation e.kind ++ "\n") = true :=
  getRepositoryStructure_contains es e he hne

/-- C6 (witness): a two-entry tree with a directory and a file. -/
theorem C6_structure_complete_witness :
    strIncludes
      (getRepositoryStructure
        [⟨"src", .tree⟩, ⟨"src/a.ts", .blob (.ok "x")⟩])
      (strRepeat "  " ((jsSplit "src/a.ts" 47).length - 1) ++ "- " ++
        "src/a.ts" ++ " " ++ kindAnnotation (.blob (.ok "x")) ++ "\n") = true :=
  C6_structure_complete [⟨"src", .tree⟩, ⟨"src/a.ts", .blob (.ok "x")⟩]
    ⟨"src/a.ts", .blob (.ok "x")⟩
    (List.mem_cons_of_mem _ (List.mem_singleton.mpr rfl)) (by decide)

/-- C9: the first parsed ignore pattern is the bare string `ui` and the
loop tests patterns by substring inclusion after stripping `$`, so ANY path
containing `ui` anywhere (also inside a longer word such as
`build/quick.ts`) is rejected and never becomes a key of the extracted-file
map. -/
theorem C9_ui_substring_rejected (p : String)
    (h : strIncludes p "ui" = true) :
    walkSkips p = true ∧
      ∀ (es : List VisitEntry) (m : FileMap),
        walkTree es [] = .ok m → mapHasKey m p = false := by
  have hskip : walkSkips p = true :=
    walkSkips_of_pattern "ui" (by decide)
      (by rw [show removeFirstDollar "ui" = "ui" from by decide]; exact h)
  exact ⟨hskip, fun es m hw => walk_no_skipped_key hw hskip⟩

/-- C9 (witness): `build/quick.ts` contains `ui` inside `quick`/`build`. -/
theorem C9_ui_substring_rejected_witness :
    walkSkips "build/quick.ts" = true ∧
      ∀ (es : List VisitEntry) (m : FileMap),
        walkTree es [] = .ok m → mapHasKey m "build/quick.ts" = false :=
  C9_ui_substring_rejected "build/quick.ts" (by decide)

/-- C10: every value stored by the walk is its raw content wrapped by
`addMarkdownPrefix`/`addMarkdownSuffix`; for an extension present in the
fence table the wrapping is `label ++ "\n" ++ raw ++ "\n" ++ label` (the
closing delimiter is the labelled fence again, e.g. `\n` followed by three
backticks and `typescript`), and for an absent extension both delimiters
are the bare three-backtick fence. -/
theorem C10_fence_shape :
    (∀ (es : List VisitEntry) (m : FileMap) (k : String) (fc : FileContent),
      walkTree es [] = .ok m → (k, fc) ∈ m →
        ∃ c, fc.content = formatFenced k c) ∧
    ∀ (p c lbl : String),
      (lookupFence (extname p) = some lbl →
        formatFenced p c = lbl ++ "\n" ++ c ++ "\n" ++ lbl) ∧
      (lookupFence (extname p) = none →
        formatFenced p c = "```" ++ "\n" ++ c ++ "\n" ++ "```") := by
  constructor
  · intro es m k fc hw hm
    rcases walkTree_mem_src es [] m hw (k, fc) hm with h0 | ⟨_, _, c, hc⟩
    · exact absurd h0 (List.not_mem_nil _)
    · exact ⟨c, hc⟩
  · intro p c lbl
    constructor
    · intro h
      unfold formatFenced addMarkdownPrefix addMarkdownSuffix
      rw [h]
      show lbl ++ "\n" ++ c ++ ("\n" ++ lbl) = lbl ++ "\n" ++ c ++ "\n" ++ lbl
      rw [← String.append_assoc]
    · intro h
      unfold formatFenced addMarkdownPrefix addMarkdownSuffix
      rw [h]
      show "```" ++ "\n" ++ c ++ ("\n" ++ "```") = "```" ++ "\n" ++ c ++ "\n" ++ "```"
      rw [← String.append_assoc]

/-- C10 (witness): a `.ts` file is wrapped in `typescript`-labelled fences
on both sides. -/
theorem C10_fence_shape_witness :
    formatFenced "a.ts" "X" =
      "```typescript" ++ "\n" ++ "X" ++ "\n" ++ "```typescript" :=
  (C10_fence_shape.2 "a.ts" "X" "```typescript").1 (by rfl)

/-- Environment of a run whose clone fails with a message that happens to
coincide with the branch-resolution message. -/
def c3EnvClone : Env :=
  { cloneResult := .error "Could not find commit for branch: HEAD"
    listFilesResult := .ok ["f"]
    walkEntries := []
    rmResult := .ok () }

/-- Environment of a run whose clone succeeds but whose ref resolves to an
empty file list. -/
def c3EnvBranch : Env :=
  { cloneResult := .ok ()
    listFilesResult := .ok []
    walkEntries := []
    rmResult := .ok () }

/-- C3 (counterexample): the two failure modes do NOT yield distinguishable
error values.  Both the clone failure and the unresolvable-branch run
surface the same single collapsed generic error value — the `catch` wraps
every failure into one `Error` with the `Failed to get repository data: `
prefix, and the two runs here produce literally equal errors. -/
theorem C3_counterexample :
    (getRepositoryData c3EnvClone "HEAD").result =
        (getRepositoryData c3EnvBranch "HEAD").result ∧
      (getRepositoryData c3EnvClone "HEAD").result =
        Except.error
          "Failed to get repository data: Could not find commit for branch: HEAD" :=
  ⟨rfl, rfl⟩

/-- C3 (amended): every failure of `getRepositoryData` is surfaced as the
single generic error `Failed to get repository data: <upstream message>`:
a clone failure contributes its own message, an empty `listFiles` result
contributes `Could not find commit for branch: <branch>`.  The failure
modes are distinguishable only by the embedded message text, not by the
kind of error value. -/
theorem C3_collapsed_generic_error (env : Env) (branch msg : String) :
    (env.cloneResult = .error msg →
      (getRepositoryData env branch).result =
        .error ("Failed to get repository data: " ++ msg)) ∧
    (env.cloneResult = .ok () → env.listFilesResult = .ok [] →
      (getRepositoryData env branch).result =
        .error ("Failed to get repository data: " ++
          ("Could not find commit for branch: " ++
            (if branch = "" then "HEAD" else branch)))) := by
  constructor
  · intro h
    unfold getRepositoryData getRepositoryDataBody
    rw [h]
  · intro h1 h2
    unfold getRepositoryData getRepositoryDataBody
    rw [h1, h2]
    simp

/-- C3 (witness for the amended theorem). -/
theorem C3_collapsed_generic_error_witness :
    (getRepositoryData
        { cloneResult := .error "boom", listFilesResult := .ok [],
          walkEntries := [], rmResult := .ok () } "HEAD").result =
      Except.error "Failed to get repository data: boom" :=
  (C3_collapsed_generic_error
    { cloneResult := .error "boom", listFilesResult := .ok [],
      walkEntries := [], rmResult := .ok () } "HEAD" "boom").1 rfl

/-- C5: on every exit path of `getRepositoryData` the temporary directory
removal runs (the `finally` block), the primary outcome never depends on
the removal's own result, and a failing removal is only logged. -/
theorem C5_cleanup_always_runs (env : Env) (branch msg : String) :
    GDAction.rmDir ∈ (getRepositoryData env branch).trace ∧
    (∀ r1 r2 : Except String Unit,
      (getRepositoryData { env with rmResult := r1 } branch).result =
        (getRepositoryData { env with rmResult := r2 } branch).result) ∧
    (env.rmResult = .error msg →
      GDAction.logCleanupError msg ∈ (getRepositoryData env branch).trace) := by
  refine ⟨?_, ?_, ?_⟩
  · unfold getRepositoryData
    cases h : env.rmResult <;> simp [h]
  · intro r1 r2
    rfl
  · intro h
    unfold getRepositoryData
    simp [h]

/-- C5 (witness): a run whose cleanup fails still logs (only) the cleanup
error. -/
theorem C5_cleanup_always_runs_witness :
    GDAction.logCleanupError "rmfail" ∈
      (getRepositoryData
        { cloneResult := .ok (), listFilesResult := .ok ["f"],
          walkEntries := [], rmResult := .error "rmfail" } "HEAD").trace :=
  (C5_cleanup_always_runs
    { cloneResult := .ok (), listFilesResult := .ok ["f"],
      walkEntries := [], rmResult := .error "rmfail" } "HEAD" "rmfail").2.2 rfl

/-- The body `{ if (x) { return 1; } else { return 2; } }` as parsed by the
TypeScript compiler: a block holding one `if` whose branches are blocks
with a single `return` each. -/
def c7Body : TsNode :=
  .block [ .ifStatement "x"
    (.block [.returnStatement (some "1")])
    (some (.block [.returnStatement (some "2")])) ]

/-- The logic node the summarizer builds for `c7Body`'s `if`. -/
def c7IfNode : LNode :=
  .mk { ty := "IfStatement", name := some "if (x)" } none (some
    [ .mk { ty := "ThenBlock" } none (some
        [ .mk { ty := "Block" } none (some
            [ .mk { ty := "ReturnStatement", value := some "1" } none none ]) ]),
      .mk { ty := "ElseBlock" } none (some
        [ .mk { ty := "Block" } none (some
            [ .mk { ty := "ReturnStatement", value := some "2" } none none ]) ]) ])

/-- The import line `import { Foo, Bar as Baz } from "./mod"` as parsed by
the TypeScript compiler: the module specifier's `getText()` keeps its
quotes; `Bar as Baz` has `propertyName = Bar` and local `name = Baz`. -/
def c8Import : TsNode :=
  .importDeclaration "\"./mod\""
    (some { name := none
            namedBindings := some (.namedImports
              [⟨none, "Foo"⟩, ⟨some "Bar", "Baz"⟩]) })

/-- C7: in any source file containing a function whose body is
`if (x) { return 1; } else { return 2; }` — whatever the file name, the
surrounding statements, the function's modifiers, name, parameters and
return type — the summarizer's logic flow for that function is exactly one
`IfStatement` node, with a `ThenBlock` child containing a `ReturnStatement`
of value `"1"` and an `ElseBlock` child containing a `ReturnStatement` of
value `"2"`. -/
theorem C7_if_else_summary (fn : String) (pre post : List TsNode)
    (mods : List String) (nm : Option String) (ps : List ParamAst)
    (rt : Option String) :
    ∃ moduleNode fnNode : LNode,
      processNode (.sourceFile fn
        (pre ++ .functionDeclaration mods nm ps rt (some c7Body) :: post)) =
        some moduleNode ∧
      fnNode ∈ moduleNode.childrenList ∧
      fnNode.logicFlow = some [c7IfNode] ∧
      c7IfNode.ty = "IfStatement" ∧
      (∃ tb ∈ c7IfNode.childrenList,
        tb.ty = "ThenBlock" ∧ containsReturnVal tb "1" = true) ∧
      (∃ eb ∈ c7IfNode.childrenList,
        eb.ty = "ElseBlock" ∧ containsReturnVal eb "2" = true) := by
  have hf : processNode (.functionDeclaration mods nm ps rt (some c7Body)) =
      some (.mk
        { ty := "Function", name := nm, modifiers := mods,
          signature := some
            { parameters := ps.map (fun param =>
                { name := param.name, type := getTypeString param.typeText,
                  isOptional := param.questionToken })
              returnType := getTypeString rt } }
        (some [c7IfNode]) none) := by
    rfl
  refine ⟨_,
    .mk
      { ty := "Function", name := nm, modifiers := mods,
        signature := some
          { parameters := ps.map (fun param =>
              { name := param.name, type := getTypeString param.typeText,
                isOptional := param.questionToken })
            returnType := getTypeString rt } }
      (some [c7IfNode]) none,
    rfl, ?_, rfl, rfl, ?_, ?_⟩
  · show _ ∈ (LNode.mk _ none
      (some (processNodeList (pre ++ _ :: post)))).childrenList
    unfold LNode.childrenList LNode.children
    simp only [Option.getD]
    rw [processNodeList_append, processNodeList_cons_some post hf]
    exact List.mem_append_right _ (List.mem_cons_self _ _)
  · exact ⟨.mk { ty := "ThenBlock" } none (some
        [ .mk { ty := "Block" } none (some
            [ .mk { ty := "ReturnStatement", value := some "1" } none none ]) ]),
      List.mem_cons_self _ _, rfl, by rfl⟩
  · refine ⟨.mk { ty := "ElseBlock" } none (some
        [ .mk { ty := "Block" } none (some
            [ .mk { ty := "ReturnStatement", value := some "2" } none none ]) ]),
      ?_, rfl, by rfl⟩
    exact List.mem_cons_of_mem _ (List.mem_singleton.mpr rfl)

/-- C8: in any source file containing the line
`import { Foo, Bar as Baz } from "./mod"`, the summarizer produces an
`Import` node with `moduleSpecifier = "./mod"` (quotes stripped) and
exactly the two imported elements `{name: Foo}` (no alias) and
`{name: Baz, alias: Bar}`. -/
theorem C8_import_summary (fn : String) (pre post : List TsNode) :
    ∃ moduleNode impNode : LNode,
      processNode (.sourceFile fn (pre ++ c8Import :: post)) =
        some moduleNode ∧
      impNode ∈ moduleNode.childrenList ∧
      impNode.ty = "Import" ∧
      impNode.moduleSpecifier = some "./mod" ∧
      impNode.importedElements =
        some [{ name := "Foo" }, { name := "Baz", aliasName := some "Bar" }] := by
  have hi : processNode c8Import =
      some (.mk
        { ty := "Import", moduleSpecifier := some "./mod",
          importedElements := some
            [{ name := "Foo" }, { name := "Baz", aliasName := some "Bar" }] }
        none none) := by
    rfl
  refine ⟨_,
    .mk
      { ty := "Import", moduleSpecifier := some "./mod",
        importedElements := some
          [{ name := "Foo" }, { name := "Baz", aliasName := some "Bar" }] }
      none none,
    rfl, ?_, rfl, rfl, rfl⟩
  show _ ∈ (LNode.mk _ none
    (some (processNodeList (pre ++ c8Import :: post)))).childrenList
  unfold LNode.childrenList LNode.children
  simp only [Option.getD]
  rw [processNodeList_append, processNodeList_cons_some post hi]
  exact List.mem_append_right _ (List.mem_cons_self _ _)
